import Mathlib

/-!
Verification of the SPIR-V constant subsystem
(`tools/clang/include/clang/SPIRV/Constant.h`).

The header declares class `Constant` with fields `opcode`, `typeId`, `args`
and a `llvm::SetVector` of decoration pointers, an inline `operator==`, and
declarations for the factory functions (`getTrue`, `getInt32`, ...), the
encoder `withResultId`, the private constructor and the interning entry
point `getUniqueConstant`.  Only `operator==` has its body in the header;
the remaining bodies live in a `Constant.cpp` that is not part of the
sources, so those operations are modelled from the specification and marked
as such in their doc comments.

Modelling choices:
* `Decoration` references are opaque handles compared by identity; they are
  embedded as `Nat`.
* `spv::Op` enumerants are embedded as their numeric SPIR-V 1.0 values.
* `llvm::SetVector<const Decoration *>` is embedded as an insertion-ordered
  duplicate-free `List Decoration`; `svInsert` is `SetVector::insert`
  (append if absent) and `svCount` is `SetVector::count` (0 or 1).
* `SPIRVContext` is the table of canonical constants; a canonical handle
  (the `const Constant *` of the C++ code) is an index into that table.
  Stateful factories become functions returning the updated context
  together with the handle.
-/

/-- Decoration references are opaque, uniquely-identified annotation objects;
the subsystem only needs identity comparison on them, so they are embedded
as bare numeric handles. -/
abbrev Decoration := Nat

namespace spv

/-- Numeric value of `spv::Op::OpConstantTrue` in SPIR-V 1.0. -/
def OpConstantTrue : Nat := 41

/-- Numeric value of `spv::Op::OpConstantFalse` in SPIR-V 1.0. -/
def OpConstantFalse : Nat := 42

/-- Numeric value of `spv::Op::OpConstant` in SPIR-V 1.0. -/
def OpConstant : Nat := 43

/-- Numeric value of `spv::Op::OpConstantComposite` in SPIR-V 1.0. -/
def OpConstantComposite : Nat := 44

/-- Numeric value of `spv::Op::OpConstantSampler` in SPIR-V 1.0. -/
def OpConstantSampler : Nat := 45

/-- Numeric value of `spv::Op::OpConstantNull` in SPIR-V 1.0. -/
def OpConstantNull : Nat := 46

/-- Numeric value of `spv::Op::OpSpecConstantTrue` in SPIR-V 1.0. -/
def OpSpecConstantTrue : Nat := 48

/-- Numeric value of `spv::Op::OpSpecConstantFalse` in SPIR-V 1.0. -/
def OpSpecConstantFalse : Nat := 49

/-- Numeric value of `spv::Op::OpSpecConstant` in SPIR-V 1.0. -/
def OpSpecConstant : Nat := 50

/-- Numeric value of `spv::Op::OpSpecConstantComposite` in SPIR-V 1.0. -/
def OpSpecConstantComposite : Nat := 51

end spv

/-- Embedding of `llvm::SetVector::insert`: append the element at the back
unless it is already present (duplicates are dropped, insertion order of the
survivors is preserved). -/
def svInsert (s : List Decoration) (d : Decoration) : List Decoration :=
  if d ∈ s then s else s ++ [d]

/-- Insert a whole list of decorations into a `SetVector`, left to right,
starting from the empty set.  This is how the private constructor
`Constant::Constant` populates the `decorations` member from its
`DecorationSet` argument. -/
def svOfList (ds : List Decoration) : List Decoration :=
  ds.foldl svInsert []

/-- Embedding of `llvm::SetVector::count`: 1 when the element is present,
0 otherwise (a `SetVector` holds no duplicates). -/
def svCount (s : List Decoration) (d : Decoration) : Nat :=
  if d ∈ s then 1 else 0

/-- Embedding of class `Constant` (Constant.h, lines 39-146): opcode of the
constant, `<result-id>` of its type, the 32-bit argument words, and the
`SetVector` of decorations, embedded as an insertion-ordered duplicate-free
list. -/
structure Constant where
  opcode : Nat
  typeId : Nat
  args : List Nat
  decorations : List Decoration
deriving DecidableEq, Repr

/-- Embedding of `Constant::operator==` (Constant.h, lines 110-122): opcode,
typeId, args and decoration-set size must all agree, and then every
decoration of the left operand must be found in the right operand's set
(`other.decorations.count(dec) != 0`). -/
def Constant.ceq (a b : Constant) : Bool :=
  if a.opcode = b.opcode ∧ a.typeId = b.typeId ∧ a.args = b.args ∧
      a.decorations.length = b.decorations.length then
    a.decorations.all fun d => svCount b.decorations d != 0
  else
    false

/-- Modelled from the spec: the private constructor `Constant::Constant`
(Constant.h line 130; its body is in the absent Constant.cpp).  It stores
opcode, type id and argument words verbatim and inserts the supplied
decorations into the `SetVector` member in order, so duplicates are removed
and first-insertion order is preserved. -/
def mkConstant (op typeId : Nat) (arg : List Nat) (dec : List Decoration) :
    Constant :=
  { opcode := op, typeId := typeId, args := arg, decorations := svOfList dec }

/-- Header-word packing of the binary format: the word count sits in the
high 16 bits and the opcode in the low 16 bits of word 0. -/
def packHeader (wordCount op : Nat) : Nat :=
  wordCount * 65536 + op

/-- Word-count field of a packed header word (high 16 bits). -/
def headerWordCount (w : Nat) : Nat :=
  w / 65536

/-- Opcode field of a packed header word (low 16 bits). -/
def headerOpcode (w : Nat) : Nat :=
  w % 65536

/-- Modelled from the spec: `Constant::withResultId` (Constant.h line 126;
its body is in the absent Constant.cpp).  Output is always
`3 + len(args)` words: the packed (word-count, opcode) header, the typeId,
the supplied result id, then the argument words verbatim and in order. -/
def Constant.withResultId (c : Constant) (resultId : Nat) : List Nat :=
  packHeader (3 + c.args.length) c.opcode :: c.typeId :: resultId :: c.args

/-- Embedding of the part of `SPIRVContext` this subsystem needs: the table
of canonical constants it owns.  A canonical handle is an index into this
table. -/
structure SPIRVContext where
  constants : List Constant
deriving DecidableEq, Repr

/-- Well-formedness invariant of a context: every interned constant has a
duplicate-free decoration list.  This holds by construction in the C++
code because `decorations` is a `llvm::SetVector`. -/
def SPIRVContext.WF (ctx : SPIRVContext) : Prop :=
  ∀ x ∈ ctx.constants, x.decorations.Nodup

/-- Scan of the context's table for an existing constant equal (per
`Constant::operator==`) to the candidate, returning its index. -/
def findEq (l : List Constant) (c : Constant) : Option Nat :=
  match l with
  | [] => none
  | x :: xs =>
    if Constant.ceq x c then some 0 else (findEq xs c).map (· + 1)

/-- Modelled from the spec: `Constant::getUniqueConstant` (Constant.h line
134; its body is in the absent Constant.cpp), the interning algorithm.
Look the candidate up in the context's table of canonical constants using
full equality; on a hit return the existing canonical handle, on a miss
register the candidate as the new canonical node and return its handle. -/
def getUniqueConstant (ctx : SPIRVContext) (c : Constant) :
    SPIRVContext × Nat :=
  match findEq ctx.constants c with
  | some i => (ctx, i)
  | none => (⟨ctx.constants ++ [c]⟩, ctx.constants.length)

/-- Modelled from the spec: `Constant::getTrue` (Constant.h line 60; its
body is in the absent Constant.cpp): a zero-argument `OpConstantTrue`
node, interned in the context. -/
def Constant.getTrue (ctx : SPIRVContext) (typeId : Nat)
    (dec : List Decoration) : SPIRVContext × Nat :=
  getUniqueConstant ctx (mkConstant spv.OpConstantTrue typeId [] dec)

/-- Modelled from the spec: `Constant::getFalse` (Constant.h line 62; its
body is in the absent Constant.cpp): a zero-argument `OpConstantFalse`
node, interned in the context. -/
def Constant.getFalse (ctx : SPIRVContext) (typeId : Nat)
    (dec : List Decoration) : SPIRVContext × Nat :=
  getUniqueConstant ctx (mkConstant spv.OpConstantFalse typeId [] dec)

/-- Modelled from the spec: `Constant::getInt32` (Constant.h line 66; its
body is in the absent Constant.cpp): one argument word holding the 32-bit
bit pattern of the value.  The value is embedded as its bit pattern, a
natural number below 2^32. -/
def Constant.getInt32 (ctx : SPIRVContext) (typeId value : Nat)
    (dec : List Decoration) : SPIRVContext × Nat :=
  getUniqueConstant ctx (mkConstant spv.OpConstant typeId [value % 4294967296] dec)

/-- Modelled from the spec: `Constant::getUint32` (Constant.h line 72; its
body is in the absent Constant.cpp): identical layout to `getInt32`. -/
def Constant.getUint32 (ctx : SPIRVContext) (typeId value : Nat)
    (dec : List Decoration) : SPIRVContext × Nat :=
  getUniqueConstant ctx (mkConstant spv.OpConstant typeId [value % 4294967296] dec)

/-- Argument words of a 64-bit literal: exactly two 32-bit words,
least-significant word first. -/
def int64Words (v : Nat) : List Nat :=
  [v % 4294967296, v / 4294967296]

/-- Modelled from the spec: `Constant::getInt64` (Constant.h line 68; its
body is in the absent Constant.cpp): two argument words holding the 64-bit
bit pattern, least-significant word first.  The value is embedded as its
bit pattern, a natural number below 2^64. -/
def Constant.getInt64 (ctx : SPIRVContext) (typeId value : Nat)
    (dec : List Decoration) : SPIRVContext × Nat :=
  getUniqueConstant ctx (mkConstant spv.OpConstant typeId (int64Words value) dec)

/-- Modelled from the spec: `Constant::getUint64` (Constant.h line 74; its
body is in the absent Constant.cpp): identical layout to `getInt64`. -/
def Constant.getUint64 (ctx : SPIRVContext) (typeId value : Nat)
    (dec : List Decoration) : SPIRVContext × Nat :=
  getUniqueConstant ctx (mkConstant spv.OpConstant typeId (int64Words value) dec)

/-- Modelled from the spec: `Constant::getComposite` (Constant.h line 85;
its body is in the absent Constant.cpp): `args` is exactly the
caller-supplied ordered sequence of constituent ids, copied verbatim. -/
def Constant.getComposite (ctx : SPIRVContext) (typeId : Nat)
    (constituents : List Nat) (dec : List Decoration) : SPIRVContext × Nat :=
  getUniqueConstant ctx
    (mkConstant spv.OpConstantComposite typeId constituents dec)

/-- Modelled from the spec: `Constant::getSpecComposite` (Constant.h line
106; its body is in the absent Constant.cpp): same as `getComposite` with
the spec-constant opcode. -/
def Constant.getSpecComposite (ctx : SPIRVContext) (typeId : Nat)
    (constituents : List Nat) (dec : List Decoration) : SPIRVContext × Nat :=
  getUniqueConstant ctx
    (mkConstant spv.OpSpecConstantComposite typeId constituents dec)

/-- Modelled from the spec: `Constant::getSampler` (Constant.h line 88; its
body is in the absent Constant.cpp): exactly three argument words, the
addressing-mode enumerant, the numeric parameter and the filter-mode
enumerant, in that order. -/
def Constant.getSampler (ctx : SPIRVContext) (typeId am param fm : Nat)
    (dec : List Decoration) : SPIRVContext × Nat :=
  getUniqueConstant ctx
    (mkConstant spv.OpConstantSampler typeId [am, param, fm] dec)

/-- Modelled from the spec: `Constant::getNull` (Constant.h line 92; its
body is in the absent Constant.cpp): a zero-argument `OpConstantNull`
node, interned in the context. -/
def Constant.getNull (ctx : SPIRVContext) (typeId : Nat)
    (dec : List Decoration) : SPIRVContext × Nat :=
  getUniqueConstant ctx (mkConstant spv.OpConstantNull typeId [] dec)

/-- Modelled from the spec: `Constant::getSpecTrue` (Constant.h line 96; its
body is in the absent Constant.cpp). -/
def Constant.getSpecTrue (ctx : SPIRVContext) (typeId : Nat)
    (dec : List Decoration) : SPIRVContext × Nat :=
  getUniqueConstant ctx (mkConstant spv.OpSpecConstantTrue typeId [] dec)

/-! ### SetVector lemmas -/

theorem mem_svInsert (s : List Decoration) (e d : Decoration) :
    d ∈ svInsert s e ↔ d ∈ s ∨ d = e := by
  unfold svInsert
  by_cases h : e ∈ s
  · rw [if_pos h]
    constructor
    · exact Or.inl
    · rintro (hd | rfl)
      · exact hd
      · exact h
  · rw [if_neg h]
    simp

theorem nodup_svInsert (s : List Decoration) (e : Decoration)
    (h : s.Nodup) : (svInsert s e).Nodup := by
  unfold svInsert
  by_cases he : e ∈ s
  · rw [if_pos he]; exact h
  · rw [if_neg he]
    simp [List.nodup_append, h, he]

theorem mem_foldl_svInsert (ds : List Decoration) (s : List Decoration)
    (d : Decoration) : d ∈ ds.foldl svInsert s ↔ d ∈ s ∨ d ∈ ds := by
  induction ds generalizing s with
  | nil => simp
  | cons e es ih =>
    simp only [List.foldl_cons, ih, mem_svInsert, List.mem_cons]
    tauto

theorem nodup_foldl_svInsert (ds : List Decoration) (s : List Decoration)
    (h : s.Nodup) : (ds.foldl svInsert s).Nodup := by
  induction ds generalizing s with
  | nil => exact h
  | cons e es ih => exact ih _ (nodup_svInsert s e h)

theorem svOfList_nodup (ds : List Decoration) : (svOfList ds).Nodup :=
  nodup_foldl_svInsert ds [] List.nodup_nil

theorem mem_svOfList (ds : List Decoration) (d : Decoration) :
    d ∈ svOfList ds ↔ d ∈ ds := by
  unfold svOfList
  rw [mem_foldl_svInsert]
  simp

/-! ### Characterization of `Constant::operator==` -/

theorem ceq_fields (a b : Constant) (h : Constant.ceq a b = true) :
    a.opcode = b.opcode ∧ a.typeId = b.typeId ∧ a.args = b.args ∧
      a.decorations.length = b.decorations.length := by
  unfold Constant.ceq at h
  by_cases hc : a.opcode = b.opcode ∧ a.typeId = b.typeId ∧ a.args = b.args ∧
      a.decorations.length = b.decorations.length
  · exact hc
  · rw [if_neg hc] at h
    exact absurd h (by simp)

theorem ceq_refl (a : Constant) : Constant.ceq a a = true := by
  unfold Constant.ceq
  rw [if_pos ⟨rfl, rfl, rfl, rfl⟩, List.all_eq_true]
  intro d hd
  simp [svCount, hd]

theorem ceq_true_iff (a b : Constant) (ha : a.decorations.Nodup)
    (hb : b.decorations.Nodup) :
    Constant.ceq a b = true ↔
      a.opcode = b.opcode ∧ a.typeId = b.typeId ∧ a.args = b.args ∧
        ∀ d, d ∈ a.decorations ↔ d ∈ b.decorations := by
  constructor
  · intro h
    obtain ⟨h1, h2, h3, h4⟩ := ceq_fields a b h
    refine ⟨h1, h2, h3, ?_⟩
    unfold Constant.ceq at h
    rw [if_pos ⟨h1, h2, h3, h4⟩, List.all_eq_true] at h
    have hsub : a.decorations ⊆ b.decorations := by
      intro d hd
      have hc := h d hd
      by_cases hdb : d ∈ b.decorations
      · exact hdb
      · simp [svCount, hdb] at hc
    have hperm : a.decorations.Perm b.decorations :=
      (ha.subperm hsub).perm_of_length_le (le_of_eq h4.symm)
    exact fun d => hperm.mem_iff
  · rintro ⟨h1, h2, h3, hmem⟩
    have hsub : a.decorations ⊆ b.decorations := fun d hd => (hmem d).mp hd
    have hsub' : b.decorations ⊆ a.decorations := fun d hd => (hmem d).mpr hd
    have hlen : a.decorations.length = b.decorations.length :=
      le_antisymm (ha.subperm hsub).length_le (hb.subperm hsub').length_le
    unfold Constant.ceq
    rw [if_pos ⟨h1, h2, h3, hlen⟩, List.all_eq_true]
    intro d hd
    simp [svCount, (hmem d).mp hd]

theorem ceq_congr_right (x c c' : Constant) (hx : x.decorations.Nodup)
    (hc : c.decorations.Nodup) (hc' : c'.decorations.Nodup)
    (h : Constant.ceq c c' = true) :
    Constant.ceq x c = Constant.ceq x c' := by
  obtain ⟨h1, h2, h3, hmem⟩ := (ceq_true_iff c c' hc hc').mp h
  have hiff : Constant.ceq x c = true ↔ Constant.ceq x c' = true := by
    rw [ceq_true_iff x c hx hc, ceq_true_iff x c' hx hc']
    constructor
    · rintro ⟨g1, g2, g3, gmem⟩
      exact ⟨g1.trans h1, g2.trans h2, g3.trans h3,
        fun d => (gmem d).trans (hmem d)⟩
    · rintro ⟨g1, g2, g3, gmem⟩
      exact ⟨g1.trans h1.symm, g2.trans h2.symm, g3.trans h3.symm,
        fun d => (gmem d).trans (hmem d).symm⟩
  cases hxc : Constant.ceq x c <;> cases hxc' : Constant.ceq x c' <;>
    simp_all

/-! ### Lemmas about the interning scan -/

theorem findEq_some (l : List Constant) (c : Constant) :
    ∀ i, findEq l c = some i →
      ∃ e, l.get? i = some e ∧ Constant.ceq e c = true := by
  induction l with
  | nil => intro i h; simp [findEq] at h
  | cons x xs ih =>
    intro i h
    unfold findEq at h
    split at h
    · rename_i hx
      cases h
      exact ⟨x, rfl, hx⟩
    · rename_i hx
      cases hfe : findEq xs c with
      | none => rw [hfe] at h; simp at h
      | some j =>
        rw [hfe] at h
        simp only [Option.map_some'] at h
        obtain ⟨e, he, hec⟩ := ih j hfe
        cases h
        exact ⟨e, by simpa using he, hec⟩

theorem findEq_none (l : List Constant) (c : Constant) :
    findEq l c = none → ∀ x ∈ l, Constant.ceq x c = false := by
  induction l with
  | nil => intro _ x hx; simp at hx
  | cons y ys ih =>
    intro h x hx
    unfold findEq at h
    split at h
    · simp at h
    · rename_i hy
      have hys : findEq ys c = none := by
        cases hfe : findEq ys c with
        | none => rfl
        | some j => rw [hfe] at h; simp at h
      rcases List.mem_cons.mp hx with rfl | hxs
      · simpa using hy
      · exact ih hys x hxs

theorem findEq_congr (l : List Constant) (c c' : Constant)
    (h : ∀ x ∈ l, Constant.ceq x c = Constant.ceq x c') :
    findEq l c = findEq l c' := by
  induction l with
  | nil => rfl
  | cons y ys ih =>
    unfold findEq
    have hy := h y (List.mem_cons_self y ys)
    have hys := ih fun x hx => h x (List.mem_cons_of_mem y hx)
    by_cases hyc : Constant.ceq y c = true
    · rw [if_pos hyc, if_pos (hy ▸ hyc)]
    · rw [if_neg hyc, if_neg (fun hc => hyc (hy ▸ hc)), hys]

theorem findEq_append (l : List Constant) (y c : Constant)
    (hl : findEq l c = none) (hy : Constant.ceq y c = true) :
    findEq (l ++ [y]) c = some l.length := by
  induction l with
  | nil => simp [findEq, hy]
  | cons x xs ih =>
    unfold findEq at hl
    split at hl
    · simp at hl
    · rename_i hx
      have hxs : findEq xs c = none := by
        cases hfe : findEq xs c with
        | none => rfl
        | some j => rw [hfe] at hl; simp at hl
      rw [List.cons_append]
      unfold findEq
      rw [if_neg hx, ih hxs]
      simp

theorem intern_found (ctx : SPIRVContext) (c : Constant) :
    ∃ e, (getUniqueConstant ctx c).1.constants.get?
        (getUniqueConstant ctx c).2 = some e ∧ Constant.ceq e c = true := by
  unfold getUniqueConstant
  cases hfe : findEq ctx.constants c with
  | some i =>
    obtain ⟨e, he, hec⟩ := findEq_some _ _ i hfe
    exact ⟨e, he, hec⟩
  | none =>
    refine ⟨c, ?_, ceq_refl c⟩
    simp

theorem intern_handle_lt (ctx : SPIRVContext) (c : Constant) :
    (getUniqueConstant ctx c).2 <
      (getUniqueConstant ctx c).1.constants.length := by
  obtain ⟨e, he, -⟩ := intern_found ctx c
  exact List.get?_eq_some.mp he |>.1

theorem intern_WF (ctx : SPIRVContext) (c : Constant) (hwf : ctx.WF)
    (hc : c.decorations.Nodup) : (getUniqueConstant ctx c).1.WF := by
  unfold getUniqueConstant
  cases hfe : findEq ctx.constants c with
  | some i => exact hwf
  | none =>
    intro x hx
    rcases List.mem_append.mp hx with hx' | hx'
    · exact hwf x hx'
    · rw [List.mem_singleton.mp hx']
      exact hc

theorem intern_stable (ctx : SPIRVContext) (c c' : Constant) (hwf : ctx.WF)
    (hc : c.decorations.Nodup) (hc' : c'.decorations.Nodup)
    (heq : Constant.ceq c c' = true) :
    getUniqueConstant (getUniqueConstant ctx c).1 c' =
      getUniqueConstant ctx c := by
  have hcongr : ∀ x ∈ ctx.constants, Constant.ceq x c = Constant.ceq x c' :=
    fun x hx => ceq_congr_right x c c' (hwf x hx) hc hc' heq
  cases hfe : findEq ctx.constants c with
  | some i =>
    have h1 : getUniqueConstant ctx c = (ctx, i) := by
      unfold getUniqueConstant; rw [hfe]
    have h2 : findEq ctx.constants c' = some i := by
      rw [← findEq_congr ctx.constants c c' hcongr]; exact hfe
    rw [h1]
    show getUniqueConstant ctx c' = (ctx, i)
    unfold getUniqueConstant
    rw [h2]
  | none =>
    have h1 : getUniqueConstant ctx c =
        (⟨ctx.constants ++ [c]⟩, ctx.constants.length) := by
      unfold getUniqueConstant; rw [hfe]
    have h2 : findEq ctx.constants c' = none := by
      rw [← findEq_congr ctx.constants c c' hcongr]; exact hfe
    have h3 : findEq (ctx.constants ++ [c]) c' = some ctx.constants.length :=
      findEq_append ctx.constants c c' h2 heq
    rw [h1]
    show getUniqueConstant ⟨ctx.constants ++ [c]⟩ c' = _
    unfold getUniqueConstant
    rw [show (⟨ctx.constants ++ [c]⟩ : SPIRVContext).constants =
      ctx.constants ++ [c] from rfl, h3]

/-! ### Claim theorems -/

/-- C2: for every pair of Constant nodes a and b (each with the
duplicate-free decoration list that `llvm::SetVector` guarantees),
`operator==` holds if and only if their opcodes, typeIds and args agree
element-wise and their decoration sets are equal as sets, regardless of
insertion order. -/
theorem constant_operator_eq_iff (a b : Constant) (ha : a.decorations.Nodup)
    (hb : b.decorations.Nodup) :
    Constant.ceq a b = true ↔
      a.opcode = b.opcode ∧ a.typeId = b.typeId ∧ a.args = b.args ∧
        ∀ d, d ∈ a.decorations ↔ d ∈ b.decorations :=
  ceq_true_iff a b ha hb

/-- Witness for C2 at the concrete nodes
`⟨41, 1, [], [5, 7]⟩` and `⟨41, 1, [], [7, 5]⟩`. -/
theorem constant_operator_eq_iff_witness :
    ((([5, 7] : List Decoration).Nodup ∧ ([7, 5] : List Decoration).Nodup) ∧
      (Constant.ceq ⟨41, 1, [], [5, 7]⟩ ⟨41, 1, [], [7, 5]⟩ = true ↔
        (Constant.mk 41 1 [] [5, 7]).opcode = (Constant.mk 41 1 [] [7, 5]).opcode ∧
          (Constant.mk 41 1 [] [5, 7]).typeId = (Constant.mk 41 1 [] [7, 5]).typeId ∧
          (Constant.mk 41 1 [] [5, 7]).args = (Constant.mk 41 1 [] [7, 5]).args ∧
          ∀ d, d ∈ (Constant.mk 41 1 [] [5, 7]).decorations ↔
            d ∈ (Constant.mk 41 1 [] [7, 5]).decorations)) :=
  ⟨⟨by decide, by decide⟩,
    constant_operator_eq_iff ⟨41, 1, [], [5, 7]⟩ ⟨41, 1, [], [7, 5]⟩
      (by decide) (by decide)⟩

/-- C10: `operator==` is symmetric although the code tests decoration-set
containment in only one direction, because it additionally requires equal
decoration-set sizes and each `SetVector` is duplicate-free. -/
theorem constant_operator_eq_symm (a b : Constant)
    (ha : a.decorations.Nodup) (hb : b.decorations.Nodup)
    (h : Constant.ceq a b = true) : Constant.ceq b a = true := by
  obtain ⟨h1, h2, h3, hmem⟩ := (ceq_true_iff a b ha hb).mp h
  exact (ceq_true_iff b a hb ha).mpr
    ⟨h1.symm, h2.symm, h3.symm, fun d => (hmem d).symm⟩

/-- Witness for C10 at the concrete nodes
`⟨41, 1, [], [5, 7]⟩` and `⟨41, 1, [], [7, 5]⟩`. -/
theorem constant_operator_eq_symm_witness :
    (([5, 7] : List Decoration).Nodup ∧ ([7, 5] : List Decoration).Nodup ∧
        Constant.ceq ⟨41, 1, [], [5, 7]⟩ ⟨41, 1, [], [7, 5]⟩ = true) ∧
      Constant.ceq ⟨41, 1, [], [7, 5]⟩ ⟨41, 1, [], [5, 7]⟩ = true :=
  ⟨⟨by decide, by decide, by decide⟩,
    constant_operator_eq_symm ⟨41, 1, [], [5, 7]⟩ ⟨41, 1, [], [7, 5]⟩
      (by decide) (by decide) (by decide)⟩

/-- C8: the interning algorithm never fails: for every context and every
candidate, `getUniqueConstant` returns a handle that is a valid index into
the resulting context's table, and the canonical node stored there is equal
(per `operator==`) to the candidate.  Every factory function delegates to
this total operation, so no factory has an error path either. -/
theorem intern_never_fails (ctx : SPIRVContext) (c : Constant) :
    (∃ e, (getUniqueConstant ctx c).1.constants.get?
        (getUniqueConstant ctx c).2 = some e ∧ Constant.ceq e c = true) ∧
      (getUniqueConstant ctx c).2 <
        (getUniqueConstant ctx c).1.constants.length :=
  ⟨intern_found ctx c, intern_handle_lt ctx c⟩

/-- C9: for every factory call whose supplied decoration list `ds` holds
the same reference A more than once, the constructed node's decoration set
holds A exactly once (duplicates are silently removed), and against any
well-formed context the call yields the same canonical handle as a call
with any list `ds'` holding the same references — in particular a call
with `[A, A, B]` yields the same canonical node as a call with `[A, B]`,
the second call registering nothing new. -/
theorem duplicate_decorations_removed (op t : Nat) (args : List Nat)
    (ds ds' : List Decoration) (A : Decoration) (ctx : SPIRVContext)
    (hwf : ctx.WF) (hdup : 1 < ds.count A)
    (hmem : ∀ d, d ∈ ds' ↔ d ∈ ds) :
    (mkConstant op t args ds).decorations.count A = 1 ∧
      getUniqueConstant (getUniqueConstant ctx (mkConstant op t args ds)).1
          (mkConstant op t args ds') =
        getUniqueConstant ctx (mkConstant op t args ds) := by
  constructor
  · exact List.count_eq_one_of_mem (svOfList_nodup ds)
      (by show A ∈ svOfList ds
          rw [mem_svOfList]
          exact List.count_pos_iff.mp (Nat.lt_of_lt_of_le Nat.zero_lt_one
            (Nat.le_of_lt hdup)))
  · apply intern_stable ctx _ _ hwf (svOfList_nodup ds) (svOfList_nodup ds')
    rw [ceq_true_iff _ _ (svOfList_nodup ds) (svOfList_nodup ds')]
    refine ⟨rfl, rfl, rfl, fun d => ?_⟩
    show d ∈ svOfList ds ↔ d ∈ svOfList ds'
    rw [mem_svOfList, mem_svOfList]
    exact (hmem d).symm

/-- Witness for C9: an empty context, decoration list `[5, 5, 7]` (the
reference 5 supplied twice) followed by the deduplicated request
`[5, 7]`. -/
theorem duplicate_decorations_removed_witness :
    ((SPIRVContext.mk []).WF ∧ 1 < ([5, 5, 7] : List Decoration).count 5 ∧
        (∀ d, d ∈ [5, 7] ↔ d ∈ [5, 5, 7])) ∧
      (mkConstant 41 1 [] [5, 5, 7]).decorations.count 5 = 1 ∧
        getUniqueConstant
            (getUniqueConstant ⟨[]⟩ (mkConstant 41 1 [] [5, 5, 7])).1
            (mkConstant 41 1 [] [5, 7]) =
          getUniqueConstant ⟨[]⟩ (mkConstant 41 1 [] [5, 5, 7]) :=
  ⟨⟨fun x hx => absurd hx (List.not_mem_nil x), by decide,
      fun d => by constructor <;> intro h <;> simp at h <;> simp [h] <;> tauto⟩,
    duplicate_decorations_removed 41 1 [] [5, 5, 7] [5, 7] 5 ⟨[]⟩
      (fun x hx => absurd hx (List.not_mem_nil x)) (by decide)
      (fun d => by constructor <;> intro h <;> simp at h <;> simp [h] <;> tauto)⟩

/-- C1: repeated factory calls against the same well-formed context with
identical opcode, type id and argument words and with decoration lists
equal as sets (any insertion order) return the identical canonical handle,
and the second call leaves the context unchanged: equal nodes are
represented by exactly one canonical instance. -/
theorem factory_repeat_identity (ctx : SPIRVContext) (op t : Nat)
    (args : List Nat) (dec dec' : List Decoration) (hwf : ctx.WF)
    (hmem : ∀ d, d ∈ dec ↔ d ∈ dec') :
    getUniqueConstant (getUniqueConstant ctx (mkConstant op t args dec)).1
        (mkConstant op t args dec') =
      getUniqueConstant ctx (mkConstant op t args dec) := by
  apply intern_stable ctx _ _ hwf (svOfList_nodup dec) (svOfList_nodup dec')
  rw [ceq_true_iff _ _ (svOfList_nodup dec) (svOfList_nodup dec')]
  refine ⟨rfl, rfl, rfl, fun d => ?_⟩
  show d ∈ svOfList dec ↔ d ∈ svOfList dec'
  rw [mem_svOfList, mem_svOfList]
  exact hmem d

/-- Witness for C1: an empty context, an `OpConstantTrue` request with
decorations `[5, 7]` repeated with decorations `[7, 5]`. -/
theorem factory_repeat_identity_witness :
    ((SPIRVContext.mk []).WF ∧ (∀ d, d ∈ [5, 7] ↔ d ∈ [7, 5])) ∧
      getUniqueConstant
          (getUniqueConstant ⟨[]⟩
            (mkConstant spv.OpConstantTrue 1 [] [5, 7])).1
          (mkConstant spv.OpConstantTrue 1 [] [7, 5]) =
        getUniqueConstant ⟨[]⟩ (mkConstant spv.OpConstantTrue 1 [] [5, 7]) :=
  ⟨⟨fun x hx => absurd hx (List.not_mem_nil x),
      fun d => by constructor <;> intro h <;> simp at h <;> simp [h] <;> tauto⟩,
    factory_repeat_identity ⟨[]⟩ spv.OpConstantTrue 1 [] [5, 7] [7, 5]
      (fun x hx => absurd hx (List.not_mem_nil x))
      (fun d => by constructor <;> intro h <;> simp at h <;> simp [h] <;> tauto)⟩

/-- C4: for every well-formed context, every opcode family (so every
constant kind, since every factory delegates the candidate it built to the
interning algorithm) and every two decorations A and B, requesting with
decoration list `[A, B]` and then with `[B, A]` yields the same canonical
handle and registers nothing new. -/
theorem decoration_order_insensitive (ctx : SPIRVContext) (op t : Nat)
    (args : List Nat) (A B : Decoration) (hwf : ctx.WF) :
    getUniqueConstant (getUniqueConstant ctx (mkConstant op t args [A, B])).1
        (mkConstant op t args [B, A]) =
      getUniqueConstant ctx (mkConstant op t args [A, B]) := by
  apply intern_stable ctx _ _ hwf (svOfList_nodup _) (svOfList_nodup _)
  rw [ceq_true_iff _ _ (svOfList_nodup _) (svOfList_nodup _)]
  refine ⟨rfl, rfl, rfl, fun d => ?_⟩
  show d ∈ svOfList [A, B] ↔ d ∈ svOfList [B, A]
  rw [mem_svOfList, mem_svOfList]
  constructor <;> intro h <;> simp at h <;> simp [h] <;> tauto

/-- Witness for C4: an empty context, an `OpConstantComposite` request with
decorations `[5, 7]` repeated with decorations `[7, 5]`. -/
theorem decoration_order_insensitive_witness :
    (SPIRVContext.mk []).WF ∧
      getUniqueConstant
          (getUniqueConstant ⟨[]⟩
            (mkConstant spv.OpConstantComposite 2 [9] [5, 7])).1
          (mkConstant spv.OpConstantComposite 2 [9] [7, 5]) =
        getUniqueConstant ⟨[]⟩
          (mkConstant spv.OpConstantComposite 2 [9] [5, 7]) :=
  ⟨fun x hx => absurd hx (List.not_mem_nil x),
    decoration_order_insensitive ⟨[]⟩ spv.OpConstantComposite 2 [9] 5 7
      (fun x hx => absurd hx (List.not_mem_nil x))⟩

/-- C3: for every constant node whose opcode fits the 16-bit opcode field,
`withResultId R` returns exactly `3 + len(args)` words: a packed header
whose word-count field equals the output's length and whose opcode field
equals the node's opcode, then the typeId, then R, then the argument words
verbatim and in order. -/
theorem withResultId_layout (c : Constant) (R : Nat)
    (hop : c.opcode < 65536) :
    (c.withResultId R).length = 3 + c.args.length ∧
      (c.withResultId R).get? 0 =
        some (packHeader (3 + c.args.length) c.opcode) ∧
      headerWordCount (packHeader (3 + c.args.length) c.opcode) =
        (c.withResultId R).length ∧
      headerOpcode (packHeader (3 + c.args.length) c.opcode) = c.opcode ∧
      (c.withResultId R).get? 1 = some c.typeId ∧
      (c.withResultId R).get? 2 = some R ∧
      (c.withResultId R).drop 3 = c.args := by
  unfold Constant.withResultId headerWordCount headerOpcode packHeader
  refine ⟨by simp; omega, rfl, ?_, ?_, rfl, rfl, rfl⟩
  · simp
    omega
  · omega

/-- Witness for C3 at the concrete node `⟨43, 2, [9, 8], [3]⟩` with result
id 5. -/
theorem withResultId_layout_witness :
    ((Constant.mk 43 2 [9, 8] [3]).opcode < 65536) ∧
      ((Constant.mk 43 2 [9, 8] [3]).withResultId 5).length =
          3 + (Constant.mk 43 2 [9, 8] [3]).args.length ∧
        ((Constant.mk 43 2 [9, 8] [3]).withResultId 5).get? 0 =
          some (packHeader (3 + (Constant.mk 43 2 [9, 8] [3]).args.length)
            (Constant.mk 43 2 [9, 8] [3]).opcode) ∧
        headerWordCount (packHeader
            (3 + (Constant.mk 43 2 [9, 8] [3]).args.length)
            (Constant.mk 43 2 [9, 8] [3]).opcode) =
          ((Constant.mk 43 2 [9, 8] [3]).withResultId 5).length ∧
        headerOpcode (packHeader
            (3 + (Constant.mk 43 2 [9, 8] [3]).args.length)
            (Constant.mk 43 2 [9, 8] [3]).opcode) =
          (Constant.mk 43 2 [9, 8] [3]).opcode ∧
        ((Constant.mk 43 2 [9, 8] [3]).withResultId 5).get? 1 =
          some (Constant.mk 43 2 [9, 8] [3]).typeId ∧
        ((Constant.mk 43 2 [9, 8] [3]).withResultId 5).get? 2 = some 5 ∧
        ((Constant.mk 43 2 [9, 8] [3]).withResultId 5).drop 3 =
          (Constant.mk 43 2 [9, 8] [3]).args :=
  ⟨by decide, withResultId_layout ⟨43, 2, [9, 8], [3]⟩ 5 (by decide)⟩

/-- C5: a 64-bit integer constant (via `getInt64` or `getUint64`, the value
embedded as its 64-bit bit pattern) is interned with exactly two argument
words, least-significant 32-bit word first, and recombining the two words
per that convention reproduces the value exactly. -/
theorem int64_two_word_packing (ctx : SPIRVContext) (t v : Nat)
    (dec : List Decoration) (hv : v < 2 ^ 64) :
    (∃ e, (Constant.getInt64 ctx t v dec).1.constants.get?
          (Constant.getInt64 ctx t v dec).2 = some e ∧
        e.args.length = 2 ∧ e.args = [v % 2 ^ 32, v / 2 ^ 32] ∧
        v % 2 ^ 32 + 2 ^ 32 * (v / 2 ^ 32) = v) ∧
      (∃ e, (Constant.getUint64 ctx t v dec).1.constants.get?
          (Constant.getUint64 ctx t v dec).2 = some e ∧
        e.args.length = 2 ∧ e.args = [v % 2 ^ 32, v / 2 ^ 32] ∧
        v % 2 ^ 32 + 2 ^ 32 * (v / 2 ^ 32) = v) := by
  have hw : int64Words v = [v % 2 ^ 32, v / 2 ^ 32] := by
    unfold int64Words
    norm_num
  constructor
  · unfold Constant.getInt64
    obtain ⟨e, he, hec⟩ :=
      intern_found ctx (mkConstant spv.OpConstant t (int64Words v) dec)
    have hargs : e.args = [v % 2 ^ 32, v / 2 ^ 32] := by
      have h := (ceq_fields _ _ hec).2.2.1
      rw [h]
      exact hw
    exact ⟨e, he, by simp [hargs], hargs, Nat.mod_add_div v (2 ^ 32)⟩
  · unfold Constant.getUint64
    obtain ⟨e, he, hec⟩ :=
      intern_found ctx (mkConstant spv.OpConstant t (int64Words v) dec)
    have hargs : e.args = [v % 2 ^ 32, v / 2 ^ 32] := by
      have h := (ceq_fields _ _ hec).2.2.1
      rw [h]
      exact hw
    exact ⟨e, he, by simp [hargs], hargs, Nat.mod_add_div v (2 ^ 32)⟩

/-- Witness for C5: interning the 64-bit value 4294967301 = 2^32 + 5 in an
empty context. -/
theorem int64_two_word_packing_witness :
    ((4294967301 : Nat) < 2 ^ 64) ∧
      ((∃ e, (Constant.getInt64 ⟨[]⟩ 1 4294967301 []).1.constants.get?
            (Constant.getInt64 ⟨[]⟩ 1 4294967301 []).2 = some e ∧
          e.args.length = 2 ∧
          e.args = [4294967301 % 2 ^ 32, 4294967301 / 2 ^ 32] ∧
          4294967301 % 2 ^ 32 + 2 ^ 32 * (4294967301 / 2 ^ 32) =
            4294967301) ∧
        (∃ e, (Constant.getUint64 ⟨[]⟩ 1 4294967301 []).1.constants.get?
            (Constant.getUint64 ⟨[]⟩ 1 4294967301 []).2 = some e ∧
          e.args.length = 2 ∧
          e.args = [4294967301 % 2 ^ 32, 4294967301 / 2 ^ 32] ∧
          4294967301 % 2 ^ 32 + 2 ^ 32 * (4294967301 / 2 ^ 32) =
            4294967301)) :=
  ⟨by norm_num, int64_two_word_packing ⟨[]⟩ 1 4294967301 [] (by norm_num)⟩

/-- C6: a composite (and a spec-composite) built from an ordered sequence
of N constituent ids is interned with `args` exactly that sequence,
verbatim, and its `withResultId` output has length `3 + N` with words
3..end equal to the constituents in original order. -/
theorem composite_args_verbatim (ctx : SPIRVContext) (t : Nat)
    (constituents : List Nat) (dec : List Decoration) (R : Nat) :
    (∃ e, (Constant.getComposite ctx t constituents dec).1.constants.get?
          (Constant.getComposite ctx t constituents dec).2 = some e ∧
        e.args = constituents ∧
        (e.withResultId R).length = 3 + constituents.length ∧
        (e.withResultId R).drop 3 = constituents) ∧
      (∃ e,
        (Constant.getSpecComposite ctx t constituents dec).1.constants.get?
          (Constant.getSpecComposite ctx t constituents dec).2 = some e ∧
        e.args = constituents ∧
        (e.withResultId R).length = 3 + constituents.length ∧
        (e.withResultId R).drop 3 = constituents) := by
  constructor
  · unfold Constant.getComposite
    obtain ⟨e, he, hec⟩ :=
      intern_found ctx (mkConstant spv.OpConstantComposite t constituents dec)
    have hargs : e.args = constituents := (ceq_fields _ _ hec).2.2.1
    refine ⟨e, he, hargs, ?_, ?_⟩
    · unfold Constant.withResultId
      simp [hargs]
      omega
    · unfold Constant.withResultId
      simp [hargs]
  · unfold Constant.getSpecComposite
    obtain ⟨e, he, hec⟩ := intern_found ctx
      (mkConstant spv.OpSpecConstantComposite t constituents dec)
    have hargs : e.args = constituents := (ceq_fields _ _ hec).2.2.1
    refine ⟨e, he, hargs, ?_, ?_⟩
    · unfold Constant.withResultId
      simp [hargs]
      omega
    · unfold Constant.withResultId
      simp [hargs]

/-- C7: two factory calls against the same context that differ in opcode,
in type id, or in the argument words return distinct canonical handles. -/
theorem factory_distinctness (ctx : SPIRVContext) (op t op' t' : Nat)
    (args args' : List Nat) (dec dec' : List Decoration)
    (hne : op ≠ op' ∨ t ≠ t' ∨ args ≠ args') :
    (getUniqueConstant (getUniqueConstant ctx (mkConstant op t args dec)).1
        (mkConstant op' t' args' dec')).2 ≠
      (getUniqueConstant ctx (mkConstant op t args dec)).2 := by
  intro hcontra
  obtain ⟨e1, he1, hec1⟩ := intern_found ctx (mkConstant op t args dec)
  have hlt := intern_handle_lt ctx (mkConstant op t args dec)
  set r1 := getUniqueConstant ctx (mkConstant op t args dec) with hr1
  cases hfe : findEq r1.1.constants (mkConstant op' t' args' dec') with
  | some i =>
    have h2 : getUniqueConstant r1.1 (mkConstant op' t' args' dec') =
        (r1.1, i) := by
      unfold getUniqueConstant
      rw [hfe]
    rw [h2] at hcontra
    have hi : i = r1.2 := hcontra
    obtain ⟨e2, he2, hec2⟩ := findEq_some _ _ i hfe
    rw [hi] at he2
    rw [he1] at he2
    injection he2 with he12
    obtain ⟨f1, f2, f3, -⟩ := ceq_fields _ _ hec1
    rw [he12] at f1 f2 f3
    obtain ⟨g1, g2, g3, -⟩ := ceq_fields _ _ hec2
    rcases hne with h | h | h
    · exact h (f1.symm.trans g1)
    · exact h (f2.symm.trans g2)
    · exact h (f3.symm.trans g3)
  | none =>
    have h2 : getUniqueConstant r1.1 (mkConstant op' t' args' dec') =
        (⟨r1.1.constants ++ [mkConstant op' t' args' dec']⟩,
          r1.1.constants.length) := by
      unfold getUniqueConstant
      rw [hfe]
    rw [h2] at hcontra
    have hlen : r1.1.constants.length = r1.2 := hcontra
    omega

/-- Witness for C7: an `OpConstantTrue` request followed by an
`OpConstantFalse` request in an empty context. -/
theorem factory_distinctness_witness :
    ((41 : Nat) ≠ 42 ∨ (1 : Nat) ≠ 1 ∨ ([] : List Nat) ≠ []) ∧
      (getUniqueConstant (getUniqueConstant ⟨[]⟩ (mkConstant 41 1 [] [])).1
          (mkConstant 42 1 [] [])).2 ≠
        (getUniqueConstant ⟨[]⟩ (mkConstant 41 1 [] [])).2 :=
  ⟨Or.inl (by decide),
    factory_distinctness ⟨[]⟩ 41 1 42 1 [] [] [] [] (Or.inl (by decide))⟩
